import Mathlib

/-!
Verification of the site-configuration and content-schema core of the
astro-micro blog repository.  The typed literals (SITE, HOME, BLOG,
PROJECTS, SOCIALS) are embedded directly from src/consts.ts; the schema
operations (validate, sortByRecency, filterPublished, take) and the
registry accessors are not present under src/, so they are modelled from
the specification, as marked on each definition.
-/

namespace AstroMicro

/-- The Site record shape from src/consts.ts (`type Site` fields as used). -/
structure Site where
  TITLE : String
  DESCRIPTION : String
  EMAIL : String
  NUM_POSTS_ON_HOMEPAGE : Nat
  NUM_PROJECTS_ON_HOMEPAGE : Nat
deriving DecidableEq

/-- Per-section page metadata shape from src/consts.ts (`type Metadata`). -/
structure Metadata where
  TITLE : String
  DESCRIPTION : String
deriving DecidableEq

/-- A social link entry from src/consts.ts (`Socials` element shape). -/
structure Social where
  NAME : String
  HREF : String
deriving DecidableEq

/-- The SITE literal of src/consts.ts, field by field. -/
def SITE : Site :=
  { TITLE := "yakitori.dev"
    DESCRIPTION := "Yakitori\x27s dev blog about blockchain."
    EMAIL := "contact|at|yakitori.dev"
    NUM_POSTS_ON_HOMEPAGE := 5
    NUM_PROJECTS_ON_HOMEPAGE := 3 }

/-- The HOME literal of src/consts.ts. -/
def HOME : Metadata :=
  { TITLE := "Home"
    DESCRIPTION := "Yakitori\x27s dev blog about blockchain." }

/-- The BLOG literal of src/consts.ts. -/
def BLOG : Metadata :=
  { TITLE := "Blog"
    DESCRIPTION := "A collection of articles on topics I am passionate about." }

/-- The PROJECTS literal of src/consts.ts. -/
def PROJECTS : Metadata :=
  { TITLE := "Projects"
    DESCRIPTION := "A collection of my projects with links to repositories and live demos." }

/-- The SOCIALS literal of src/consts.ts, in source order. -/
def SOCIALS : List Social :=
  [ { NAME := "X (formerly Twitter)", HREF := "https://x.com/yakitoricapital" }
  , { NAME := "GitHub", HREF := "https://github.com/Oni-giri" } ]

/-! ### Character-level string helpers

All string processing is done on `String.data` (a `List Char`) with
structural recursion, so every definition evaluates by `decide`/`rfl`.
-/

def pipeChar : Char := Char.ofNat 124

def atChar : Char := Char.ofNat 64

def dotChar : Char := Char.ofNat 46

def hyphenChar : Char := Char.ofNat 45

def colonChar : Char := Char.ofNat 58

def slashChar : Char := Char.ofNat 47

/-- Split a character list on a separator character; always returns at
least one group (mirroring the semantics of splitting a string). -/
def splitOnChar (c : Char) : List Char → List (List Char)
  | [] => [[]]
  | x :: xs =>
    if x == c then
      [] :: splitOnChar c xs
    else
      match splitOnChar c xs with
      | [] => [[x]]
      | g :: gs => (x :: g) :: gs

def isWhitespaceChar (c : Char) : Bool :=
  c.toNat == 32 || c.toNat == 9 || c.toNat == 10 || c.toNat == 13

/-- `true` when the string has at least one non-whitespace character,
i.e. it is non-empty after trimming. -/
def nonBlank (s : String) : Bool :=
  s.data.any (fun c => !(isWhitespaceChar c))

/-- Modelled from the spec: "syntactically valid absolute URL" for a
SocialLink `url`; the URL-validity check itself has no implementation
under src/.  Accepts one or more ASCII letters (the scheme), then
`://`, then a non-empty remainder. -/
def schemeThenRest : List Char → Bool
  | [] => false
  | c :: cs =>
    if c.isAlpha then
      match cs with
      | a :: b :: d :: rest =>
        if a == colonChar && b == slashChar && d == slashChar then
          !(List.isEmpty rest)
        else
          schemeThenRest cs
      | _ => false
    else
      false

def isValidAbsoluteUrl (s : String) : Bool :=
  schemeThenRest s.data

/-- Modelled from the spec: a "normal, syntactically valid email
address" (Design Notes); no email-validity code exists under src/.
Requires exactly one `@` with non-empty local part and a domain that is
non-empty and contains a dot. -/
def isValidEmail (s : String) : Bool :=
  match splitOnChar atChar s.data with
  | [lp, dp] => !(List.isEmpty lp) && !(List.isEmpty dp) && dp.contains dotChar
  | _ => false

def deobfuscateAux : List Char → List Char
  | p :: a :: t :: q :: rest =>
    if p == pipeChar && a == Char.ofNat 97 && t == Char.ofNat 116 && q == pipeChar then
      atChar :: deobfuscateAux rest
    else
      p :: deobfuscateAux (a :: t :: q :: rest)
  | l => l

/-- Modelled from the spec: the render-time "display transform" of the
obfuscated contact string (Design Notes); it has no implementation
under src/.  Replaces every occurrence of the delimiter `|at|` with
`@`. -/
def deobfuscateEmail (s : String) : String :=
  ⟨deobfuscateAux s.data⟩

/-! ### Content entry schema -/

/-- A calendar date as year/month/day numerals. -/
structure Date where
  year : Nat
  month : Nat
  day : Nat
deriving DecidableEq

/-- A validated content entry (the common fields of the spec data
model: blog posts and projects share them). -/
structure ContentEntry where
  title : String
  description : String
  publicationDate : Date
  draft : Bool
deriving DecidableEq

/-- A raw front-matter value: content files carry strings and booleans. -/
inductive FMValue where
  | str : String → FMValue
  | bool : Bool → FMValue
deriving DecidableEq

/-- Raw front matter: an association list from keys to values, as read
from a content file (e.g. src/src/content/projects/project-1/index.md). -/
abbrev RawFrontMatter := List (String × FMValue)

def lookupKey (fm : RawFrontMatter) (k : String) : Option FMValue :=
  match fm.find? (fun p => p.1 == k) with
  | some p => some p.2
  | none => none

def isLeapYear (y : Nat) : Bool :=
  (y % 4 == 0 && y % 100 != 0) || y % 400 == 0

def daysInMonth (y m : Nat) : Nat :=
  if m == 2 then (if isLeapYear y then 29 else 28)
  else if m == 4 || m == 6 || m == 9 || m == 11 then 30
  else 31

def validDate (y m d : Nat) : Bool :=
  1 ≤ m && m ≤ 12 && 1 ≤ d && d ≤ daysInMonth y m

def allDigits (l : List Char) : Bool :=
  !(List.isEmpty l) && l.all Char.isDigit

def natOfDigits (l : List Char) : Nat :=
  l.foldl (fun n c => n * 10 + (c.toNat - 48)) 0

/-- The canonical date-string shape chosen by the spec: exactly
`YYYY-MM-DD` (four digits, hyphen, two digits, hyphen, two digits). -/
def isCanonicalDateString (s : String) : Bool :=
  match splitOnChar hyphenChar s.data with
  | [y, m, d] =>
    y.length == 4 && m.length == 2 && d.length == 2 &&
      allDigits y && allDigits m && allDigits d
  | _ => false

/-- Modelled from the spec: the date parser used by `validate`; no date
parsing code exists under src/.  Per the spec, exactly one canonical
format (`YYYY-MM-DD`, as seen in the blog front matter) is accepted and
every other string, including `MM/DD/YYYY`, is rejected; an unparsable
string yields `none`, never a substitute date. -/
def parseDate (s : String) : Option Date :=
  if isCanonicalDateString s then
    match splitOnChar hyphenChar s.data with
    | [y, m, d] =>
      if validDate (natOfDigits y) (natOfDigits m) (natOfDigits d) then
        some ⟨natOfDigits y, natOfDigits m, natOfDigits d⟩
      else none
    | _ => none
  else none

/-- `some` title exactly when the `title` key is present, is a string,
and is non-empty after trimming. -/
def checkTitle (fm : RawFrontMatter) : Option String :=
  match lookupKey fm "title" with
  | some (FMValue.str s) => if nonBlank s then some s else none
  | _ => none

def checkDescription (fm : RawFrontMatter) : Option String :=
  match lookupKey fm "description" with
  | some (FMValue.str s) => if nonBlank s then some s else none
  | _ => none

def checkDate (fm : RawFrontMatter) : Option Date :=
  match lookupKey fm "date" with
  | some (FMValue.str s) => parseDate s
  | _ => none

/-- `draft` defaults to `false` when absent; a present non-boolean is a
violation. -/
def checkDraft (fm : RawFrontMatter) : Option Bool :=
  match lookupKey fm "draft" with
  | none => some false
  | some (FMValue.bool b) => some b
  | some _ => none

/-- The names of every violated field of a front-matter record. -/
def violationList (fm : RawFrontMatter) : List String :=
  (if (checkTitle fm).isNone then ["title"] else []) ++
  (if (checkDescription fm).isNone then ["description"] else []) ++
  (if (checkDate fm).isNone then ["date"] else []) ++
  (if (checkDraft fm).isNone then ["draft"] else [])

/-- Modelled from the spec: `validate(rawFrontMatter) -> ContentEntry |
SchemaViolation`; no validation code exists under src/.  Checks
presence and type of every required field, applies the default
`draft := false` when the key is absent, parses the date, and on
failure returns the full list of violated field names. -/
def validate (fm : RawFrontMatter) : Except (List String) ContentEntry :=
  match checkTitle fm, checkDescription fm, checkDate fm, checkDraft fm with
  | some t, some d, some pd, some dr => Except.ok ⟨t, d, pd, dr⟩
  | _, _, _, _ => Except.error (violationList fm)

/-! ### Listing pipeline -/

/-- Lexicographic order on dates: year first, then month, then day. -/
def dateLe (a b : Date) : Bool :=
  if a.year < b.year then true
  else if b.year < a.year then false
  else if a.month < b.month then true
  else if b.month < a.month then false
  else a.day ≤ b.day

/-- Insert an entry into an already ordered (descending) list, placing
it before the first element whose date is less than or equal to its
own; equal-dated elements already present stay behind it, which is what
makes the sort stable. -/
def insertEntry (x : ContentEntry) : List ContentEntry → List ContentEntry
  | [] => [x]
  | y :: ys =>
    if dateLe y.publicationDate x.publicationDate then
      x :: y :: ys
    else
      y :: insertEntry x ys

/-- Modelled from the spec: `sortByRecency`, a stable sort by
`publicationDate` descending; no sorting code exists under src/.
Implemented as a stable insertion sort. -/
def sortByRecency : List ContentEntry → List ContentEntry
  | [] => []
  | x :: xs => insertEntry x (sortByRecency xs)

/-- Modelled from the spec: `filterPublished`, removing every entry
with `draft = true` and keeping the rest in order; no filtering code
exists under src/. -/
def filterPublished (entries : List ContentEntry) : List ContentEntry :=
  entries.filter (fun e => !e.draft)

/-- Modelled from the spec: `take(entries, n)`, the first at most `n`
entries in input order; no such code exists under src/. -/
def take (entries : List ContentEntry) (n : Nat) : List ContentEntry :=
  List.take n entries

/-! ### Site configuration registry -/

inductive ConfigurationError where
  | invalidSection : ConfigurationError
  | invalidSocialUrl : String → ConfigurationError
deriving DecidableEq

/-- The validated, immutable registry value. -/
structure Registry where
  site : Site
  home : Metadata
  blog : Metadata
  projects : Metadata
  socials : List Social
deriving DecidableEq

def metadataOk (m : Metadata) : Bool :=
  nonBlank m.TITLE && nonBlank m.DESCRIPTION

/-- Modelled from the spec: registry initialization; no initialization
code exists under src/ (consts.ts only holds the literals).  Every
section must have non-blank title and description and every social
link a syntactically valid absolute URL; a malformed literal halts the
build with a ConfigurationError and no registry value is produced. -/
def initRegistry (site : Site) (home blog projects : Metadata)
    (socials : List Social) : Except ConfigurationError Registry :=
  if !(metadataOk home && metadataOk blog && metadataOk projects) then
    Except.error ConfigurationError.invalidSection
  else
    match socials.find? (fun s => !(isValidAbsoluteUrl s.HREF)) with
    | some s => Except.error (ConfigurationError.invalidSocialUrl s.NAME)
    | none => Except.ok ⟨site, home, blog, projects, socials⟩

/-- Modelled from the spec: `getSiteIdentity()`; the accessor has no
implementation under src/.  On the immutable registry value it is a
pure field projection. -/
def getSiteIdentity (r : Registry) : Site :=
  r.site

/-- Modelled from the spec: `getSocialLinks()`; pure projection of the
configured sequence in display order. -/
def getSocialLinks (r : Registry) : List Social :=
  r.socials

/-! ### Concrete example inputs used by the testable properties -/

def fmOct1 : RawFrontMatter :=
  [("title", FMValue.str "post-a"), ("description", FMValue.str "first post"),
   ("date", FMValue.str "2024-10-01")]

def fmSep15Draft : RawFrontMatter :=
  [("title", FMValue.str "post-b"), ("description", FMValue.str "second post"),
   ("date", FMValue.str "2024-09-15"), ("draft", FMValue.bool true)]

def fmSep20 : RawFrontMatter :=
  [("title", FMValue.str "post-c"), ("description", FMValue.str "third post"),
   ("date", FMValue.str "2024-09-20")]

def postOct1 : ContentEntry := ⟨"post-a", "first post", ⟨2024, 10, 1⟩, false⟩

def postSep15Draft : ContentEntry := ⟨"post-b", "second post", ⟨2024, 9, 15⟩, true⟩

def postSep20 : ContentEntry := ⟨"post-c", "third post", ⟨2024, 9, 20⟩, false⟩

def eJan1a : ContentEntry := ⟨"first-january", "x", ⟨2024, 1, 1⟩, false⟩

def eMar1 : ContentEntry := ⟨"march", "x", ⟨2024, 3, 1⟩, false⟩

def eJan1b : ContentEntry := ⟨"second-january", "x", ⟨2024, 1, 1⟩, false⟩

/-! ### Theorems -/

/-- C10: the Home section description string in src/consts.ts is
identical to the site-wide SITE description string. -/
theorem home_description_matches_site : HOME.DESCRIPTION = SITE.DESCRIPTION := rfl

/-- C9 counterexample: the canonical stored value of SITE.EMAIL in
src/consts.ts is the obfuscated delimited string, which contains no
at-sign at all and is not a syntactically valid email address, so the
obfuscation is the stored value itself, contrary to the claim. -/
theorem stored_email_counterexample :
    SITE.EMAIL = "contact|at|yakitori.dev"
    ∧ List.contains SITE.EMAIL.data atChar = false
    ∧ isValidEmail SITE.EMAIL = false := by
  exact ⟨rfl, rfl, rfl⟩

/-- C9 (amended): the canonical stored value of SITE.EMAIL is the
obfuscated delimited form, not a valid email address; applying the
render-time de-obfuscation display transform to it recovers the normal,
syntactically valid address. -/
theorem stored_email_obfuscated_with_display_transform :
    isValidEmail SITE.EMAIL = false
    ∧ deobfuscateEmail SITE.EMAIL = "contact@yakitori.dev"
    ∧ isValidEmail (deobfuscateEmail SITE.EMAIL) = true := by
  exact ⟨rfl, rfl, rfl⟩

/-- C2: the three blog records dated 2024-10-01, 2024-09-15 (draft) and
2024-09-20 validate to their entries, and the homepage pipeline
filterPublished then sortByRecency then take with
SITE.NUM_POSTS_ON_HOMEPAGE = 5 yields exactly the 2024-10-01 and
2024-09-20 entries in that order. -/
theorem homepage_pipeline_end_to_end :
    validate fmOct1 = Except.ok postOct1
    ∧ validate fmSep15Draft = Except.ok postSep15Draft
    ∧ validate fmSep20 = Except.ok postSep20
    ∧ SITE.NUM_POSTS_ON_HOMEPAGE = 5
    ∧ take (sortByRecency (filterPublished [postOct1, postSep15Draft, postSep20]))
        SITE.NUM_POSTS_ON_HOMEPAGE = [postOct1, postSep20] := by
  exact ⟨rfl, rfl, rfl, rfl, rfl⟩

/-- C4: filterPublished removes exactly the draft entries — the result
is an order-preserving sublist of the input, every kept entry is
non-draft, every non-draft entry of the input is kept — and the
three-entry example keeps only its single non-draft entry. -/
theorem filterPublished_removes_exactly_drafts :
    (∀ l : List ContentEntry, List.Sublist (filterPublished l) l)
    ∧ (∀ l : List ContentEntry, ∀ e ∈ filterPublished l, e.draft = false)
    ∧ (∀ l : List ContentEntry, ∀ e ∈ l, e.draft = false → e ∈ filterPublished l)
    ∧ filterPublished
        [⟨"a", "a", ⟨2024, 1, 1⟩, true⟩, ⟨"b", "b", ⟨2024, 1, 2⟩, false⟩,
          ⟨"c", "c", ⟨2024, 1, 3⟩, true⟩]
        = [⟨"b", "b", ⟨2024, 1, 2⟩, false⟩] := by
  refine ⟨?_, ?_, ?_, rfl⟩
  · intro l
    exact List.filter_sublist l
  · intro l e he
    have := (List.mem_filter.mp he).2
    simpa using this
  · intro l e he hd
    exact List.mem_filter.mpr ⟨he, by simp [hd]⟩

/-- Witness for C4 at a concrete list and entry. -/
theorem filterPublished_removes_exactly_drafts_witness :
    (⟨"b", "b", ⟨2024, 1, 2⟩, false⟩ : ContentEntry) ∈
      filterPublished [⟨"b", "b", ⟨2024, 1, 2⟩, false⟩] :=
  filterPublished_removes_exactly_drafts.2.2.1
    [⟨"b", "b", ⟨2024, 1, 2⟩, false⟩] ⟨"b", "b", ⟨2024, 1, 2⟩, false⟩ (by decide) rfl

/-- C5: take returns the first min(n, length) entries in input order —
length is min n (length l) and the taken part prefixes the input — with
take l 0 empty and take l n the whole list when n bounds the length. -/
theorem take_returns_first_min_entries (l : List ContentEntry) (n : Nat) :
    take l 0 = []
    ∧ (l.length ≤ n → take l n = l)
    ∧ (take l n).length = min n l.length
    ∧ take l n ++ List.drop n l = l := by
  refine ⟨rfl, ?_, ?_, ?_⟩
  · intro h
    exact List.take_of_length_le h
  · exact List.length_take n l
  · exact List.take_append_drop n l

/-- Witness for C5 at a concrete list with n exceeding its length. -/
theorem take_returns_first_min_entries_witness :
    take [⟨"a", "a", ⟨2024, 1, 1⟩, false⟩] 3 = [⟨"a", "a", ⟨2024, 1, 1⟩, false⟩] :=
  (take_returns_first_min_entries [⟨"a", "a", ⟨2024, 1, 1⟩, false⟩] 3).2.1 (by decide)

lemma checkTitle_none_of_lookup {fm : RawFrontMatter}
    (h : lookupKey fm "title" = none) : checkTitle fm = none := by
  simp [checkTitle, h]

lemma checkDescription_none_of_lookup {fm : RawFrontMatter}
    (h : lookupKey fm "description" = none) : checkDescription fm = none := by
  simp [checkDescription, h]

lemma checkDraft_default_of_lookup {fm : RawFrontMatter}
    (h : lookupKey fm "draft" = none) : checkDraft fm = some false := by
  simp [checkDraft, h]

lemma validate_error_eq {fm : RawFrontMatter}
    (h : checkTitle fm = none ∨ checkDescription fm = none ∨
      checkDate fm = none ∨ checkDraft fm = none) :
    validate fm = Except.error (violationList fm) := by
  unfold validate
  cases hT : checkTitle fm <;> cases hD : checkDescription fm <;>
    cases hDa : checkDate fm <;> cases hDr : checkDraft fm <;> simp_all

lemma mem_violationList_title {fm : RawFrontMatter}
    (h : checkTitle fm = none) : "title" ∈ violationList fm := by
  simp [violationList, h]

lemma mem_violationList_description {fm : RawFrontMatter}
    (h : checkDescription fm = none) : "description" ∈ violationList fm := by
  simp [violationList, h]

lemma mem_violationList_date {fm : RawFrontMatter}
    (h : checkDate fm = none) : "date" ∈ violationList fm := by
  simp [violationList, h]

lemma validate_ok_checks {fm : RawFrontMatter} {e : ContentEntry}
    (h : validate fm = Except.ok e) :
    checkTitle fm = some e.title ∧ checkDescription fm = some e.description ∧
      checkDate fm = some e.publicationDate ∧ checkDraft fm = some e.draft := by
  unfold validate at h
  cases hT : checkTitle fm <;> cases hD : checkDescription fm <;>
    cases hDa : checkDate fm <;> cases hDr : checkDraft fm <;> rw [hT, hD, hDa, hDr] at h <;>
    simp only [Except.ok.injEq] at h
  case some.some.some.some t d pd dr =>
    subst h
    exact ⟨rfl, rfl, rfl, rfl⟩
  all_goals exact absurd h (by simp)

/-- C1: validate checks presence and type of every required field (an
accepted entry passes every check), applies the default draft = false
when the draft key is absent, and on failure names every violated
field: a record missing title yields a violation naming title, and a
record missing both title and description yields a violation naming
both. -/
theorem validate_reports_every_violation (fm : RawFrontMatter) :
    (∀ e, validate fm = Except.ok e →
      checkTitle fm = some e.title ∧ checkDescription fm = some e.description ∧
        checkDate fm = some e.publicationDate ∧ checkDraft fm = some e.draft)
    ∧ (lookupKey fm "draft" = none → ∀ e, validate fm = Except.ok e → e.draft = false)
    ∧ (lookupKey fm "title" = none →
        ∃ l, validate fm = Except.error l ∧ "title" ∈ l)
    ∧ (lookupKey fm "title" = none → lookupKey fm "description" = none →
        ∃ l, validate fm = Except.error l ∧ "title" ∈ l ∧ "description" ∈ l) := by
  refine ⟨?_, ?_, ?_, ?_⟩
  · intro e he
    exact validate_ok_checks he
  · intro hd e he
    have h1 := (validate_ok_checks he).2.2.2
    have h2 := checkDraft_default_of_lookup hd
    rw [h1] at h2
    exact Option.some.inj h2
  · intro ht
    have hT := checkTitle_none_of_lookup ht
    exact ⟨violationList fm, validate_error_eq (Or.inl hT), mem_violationList_title hT⟩
  · intro ht hd
    have hT := checkTitle_none_of_lookup ht
    have hD := checkDescription_none_of_lookup hd
    exact ⟨violationList fm, validate_error_eq (Or.inl hT),
      mem_violationList_title hT, mem_violationList_description hD⟩

/-- Witness for C1 at the empty front-matter record. -/
theorem validate_reports_every_violation_witness :
    ∃ l, validate [] = Except.error l ∧ "title" ∈ l ∧ "description" ∈ l :=
  (validate_reports_every_violation []).2.2.2 rfl rfl

lemma parseDate_some_canonical {s : String} {d : Date} (h : parseDate s = some d) :
    isCanonicalDateString s = true ∧ validDate d.year d.month d.day = true := by
  unfold parseDate at h
  split at h
  next hc =>
    refine ⟨hc, ?_⟩
    rcases hs : splitOnChar hyphenChar s.data with _ | ⟨y, ys⟩
    · rw [hs] at h
      exact Option.noConfusion h
    · rcases ys with _ | ⟨m, ys⟩
      · rw [hs] at h
        exact Option.noConfusion h
      · rcases ys with _ | ⟨dd, ys⟩
        · rw [hs] at h
          exact Option.noConfusion h
        · rcases ys with _ | ⟨e2, es⟩
          · rw [hs] at h
            have h2 : (if validDate (natOfDigits y) (natOfDigits m) (natOfDigits dd) = true then
                some (⟨natOfDigits y, natOfDigits m, natOfDigits dd⟩ : Date) else none) = some d := h
            split at h2
            next hv =>
              have hd := Option.some.inj h2
              subst hd
              exact hv
            next hv =>
              exact Option.noConfusion h2
          · rw [hs] at h
            exact Option.noConfusion h
  next hc =>
    exact Option.noConfusion h

/-- C6: date parsing accepts exactly the canonical YYYY-MM-DD shape and
only genuine calendar dates; of the two formats present in the source
content, 2024-10-01 validates while 10/01/2024 is rejected; and a
record whose date fails to parse makes validate return a violation
naming date rather than any substitute date. -/
theorem parseDate_single_canonical_format :
    parseDate "2024-10-01" = some ⟨2024, 10, 1⟩
    ∧ parseDate "10/01/2024" = none
    ∧ (∀ s d, parseDate s = some d →
        isCanonicalDateString s = true ∧ validDate d.year d.month d.day = true)
    ∧ (∀ fm : RawFrontMatter, checkDate fm = none →
        ∃ l, validate fm = Except.error l ∧ "date" ∈ l) := by
  refine ⟨rfl, rfl, ?_, ?_⟩
  · intro s d h
    exact parseDate_some_canonical h
  · intro fm h
    exact ⟨violationList fm, validate_error_eq (Or.inr (Or.inr (Or.inl h))),
      mem_violationList_date h⟩

/-- Witness for C6 at concrete inputs: the canonical string parses and
is canonical, and the empty record has an unparsable date and a
violation naming date. -/
theorem parseDate_single_canonical_format_witness :
    (isCanonicalDateString "2024-10-01" = true
      ∧ validDate (2024 : Nat) 10 1 = true)
    ∧ ∃ l, validate [] = Except.error l ∧ "date" ∈ l :=
  ⟨parseDate_single_canonical_format.2.2.1 "2024-10-01" ⟨2024, 10, 1⟩ rfl,
    parseDate_single_canonical_format.2.2.2 [] rfl⟩

lemma initRegistry_error_of_bad_social {site : Site} {home blog projects : Metadata}
    {socials : List Social}
    (h : ∃ s ∈ socials, isValidAbsoluteUrl s.HREF = false) :
    ∃ e, initRegistry site home blog projects socials = Except.error e := by
  unfold initRegistry
  cases hm : (metadataOk home && metadataOk blog && metadataOk projects)
  · exact ⟨ConfigurationError.invalidSection, rfl⟩
  · rcases h with ⟨s, hmem, hbad⟩
    cases hf : socials.find? (fun s => !(isValidAbsoluteUrl s.HREF))
    · exfalso
      have := List.find?_eq_none.mp hf s hmem
      simp [hbad] at this
    · next s0 =>
      exact ⟨ConfigurationError.invalidSocialUrl s0.NAME, rfl⟩

/-- C7: when the social-link sequence contains an entry whose url is
not a syntactically valid absolute URL, registry initialization fails
with a ConfigurationError and no registry value is ever returned to a
consumer. -/
theorem initRegistry_fails_on_malformed_social (site : Site)
    (home blog projects : Metadata) (socials : List Social)
    (h : ∃ s ∈ socials, isValidAbsoluteUrl s.HREF = false) :
    (∃ e, initRegistry site home blog projects socials = Except.error e)
    ∧ ∀ r, initRegistry site home blog projects socials ≠ Except.ok r := by
  refine ⟨initRegistry_error_of_bad_social h, ?_⟩
  intro r hr
  rcases @initRegistry_error_of_bad_social site home blog projects socials h with ⟨e, he⟩
  rw [he] at hr
  exact Except.noConfusion hr

/-- Witness for C7 at the src literals with one URL-less social entry. -/
theorem initRegistry_fails_on_malformed_social_witness :
    (∃ e, initRegistry SITE HOME BLOG PROJECTS [⟨"Broken", "no-url-here"⟩] = Except.error e)
    ∧ ∀ r, initRegistry SITE HOME BLOG PROJECTS [⟨"Broken", "no-url-here"⟩] ≠ Except.ok r :=
  initRegistry_fails_on_malformed_social SITE HOME BLOG PROJECTS [⟨"Broken", "no-url-here"⟩]
    ⟨⟨"Broken", "no-url-here"⟩, by decide, rfl⟩

lemma initRegistry_ok_site {site : Site} {home blog projects : Metadata}
    {socials : List Social} {r : Registry}
    (h : initRegistry site home blog projects socials = Except.ok r) :
    r = ⟨site, home, blog, projects, socials⟩ := by
  unfold initRegistry at h
  cases hm : (metadataOk home && metadataOk blog && metadataOk projects) <;> rw [hm] at h
  · exact Except.noConfusion h
  · cases hf : socials.find? (fun s => !(isValidAbsoluteUrl s.HREF)) <;> rw [hf] at h
    · exact (Except.ok.inj h).symm
    · exact Except.noConfusion h

/-- C8: on any successfully initialized registry, getSiteIdentity
returns a value equal in every field to the SiteIdentity literal, and
repeated calls coincide (the accessor is a pure projection of the
immutable registry value). -/
theorem getSiteIdentity_returns_the_literal (site : Site) (home blog projects : Metadata)
    (socials : List Social) (r : Registry)
    (h : initRegistry site home blog projects socials = Except.ok r) :
    (getSiteIdentity r).TITLE = site.TITLE
    ∧ (getSiteIdentity r).DESCRIPTION = site.DESCRIPTION
    ∧ (getSiteIdentity r).EMAIL = site.EMAIL
    ∧ (getSiteIdentity r).NUM_POSTS_ON_HOMEPAGE = site.NUM_POSTS_ON_HOMEPAGE
    ∧ (getSiteIdentity r).NUM_PROJECTS_ON_HOMEPAGE = site.NUM_PROJECTS_ON_HOMEPAGE
    ∧ getSiteIdentity r = getSiteIdentity r := by
  have hr := initRegistry_ok_site h
  subst hr
  exact ⟨rfl, rfl, rfl, rfl, rfl, rfl⟩

/-- Witness for C8: the src literals initialize successfully and the
accessor returns the SITE literal field by field. -/
theorem getSiteIdentity_returns_the_literal_witness :
    (getSiteIdentity ⟨SITE, HOME, BLOG, PROJECTS, SOCIALS⟩).TITLE = SITE.TITLE
    ∧ (getSiteIdentity ⟨SITE, HOME, BLOG, PROJECTS, SOCIALS⟩).DESCRIPTION = SITE.DESCRIPTION
    ∧ (getSiteIdentity ⟨SITE, HOME, BLOG, PROJECTS, SOCIALS⟩).EMAIL = SITE.EMAIL
    ∧ (getSiteIdentity ⟨SITE, HOME, BLOG, PROJECTS, SOCIALS⟩).NUM_POSTS_ON_HOMEPAGE
        = SITE.NUM_POSTS_ON_HOMEPAGE
    ∧ (getSiteIdentity ⟨SITE, HOME, BLOG, PROJECTS, SOCIALS⟩).NUM_PROJECTS_ON_HOMEPAGE
        = SITE.NUM_PROJECTS_ON_HOMEPAGE
    ∧ getSiteIdentity ⟨SITE, HOME, BLOG, PROJECTS, SOCIALS⟩
        = getSiteIdentity ⟨SITE, HOME, BLOG, PROJECTS, SOCIALS⟩ :=
  getSiteIdentity_returns_the_literal SITE HOME BLOG PROJECTS SOCIALS
    ⟨SITE, HOME, BLOG, PROJECTS, SOCIALS⟩ rfl

lemma dateLe_iff (a b : Date) :
    dateLe a b = true ↔
      (a.year < b.year ∨ (a.year = b.year ∧
        (a.month < b.month ∨ (a.month = b.month ∧ a.day ≤ b.day)))) := by
  unfold dateLe
  split_ifs <;> simp <;> omega

lemma dateLe_refl (a : Date) : dateLe a a = true := by
  rw [dateLe_iff]
  omega

lemma dateLe_total (a b : Date) : dateLe a b = true ∨ dateLe b a = true := by
  simp only [dateLe_iff]
  omega

lemma dateLe_trans (a b c : Date) (h1 : dateLe a b = true) (h2 : dateLe b c = true) :
    dateLe a c = true := by
  simp only [dateLe_iff] at h1 h2 ⊢
  omega

lemma insertEntry_perm (x : ContentEntry) :
    ∀ ys, List.Perm (insertEntry x ys) (x :: ys)
  | [] => List.Perm.refl _
  | y :: ys => by
    simp only [insertEntry]
    split
    · exact List.Perm.refl _
    · exact List.Perm.trans (List.Perm.cons y (insertEntry_perm x ys)) (List.Perm.swap x y ys)

lemma sortByRecency_perm : ∀ l, List.Perm (sortByRecency l) l
  | [] => List.Perm.refl _
  | x :: xs =>
    List.Perm.trans (insertEntry_perm x (sortByRecency xs))
      (List.Perm.cons x (sortByRecency_perm xs))

lemma mem_insertEntry {z x : ContentEntry} {ys : List ContentEntry}
    (h : z ∈ insertEntry x ys) : z = x ∨ z ∈ ys := by
  have := (insertEntry_perm x ys).mem_iff.mp h
  simpa using this

lemma insertEntry_pairwise (x : ContentEntry) :
    ∀ ys, List.Pairwise (fun a b => dateLe b.publicationDate a.publicationDate = true) ys →
      List.Pairwise (fun a b => dateLe b.publicationDate a.publicationDate = true)
        (insertEntry x ys)
  | [], _ => List.Pairwise.cons (fun b hb => absurd hb (List.not_mem_nil b)) List.Pairwise.nil
  | y :: ys, hp => by
    simp only [insertEntry]
    rcases hp with _ | ⟨hy, hys⟩
    split
    next hle =>
      refine List.Pairwise.cons ?_ (List.Pairwise.cons hy hys)
      intro b hb
      rcases List.mem_cons.mp hb with rfl | hb
      · exact hle
      · exact dateLe_trans _ _ _ (hy b hb) hle
    next hnle =>
      refine List.Pairwise.cons ?_ (insertEntry_pairwise x ys hys)
      intro b hb
      rcases mem_insertEntry hb with rfl | hb
      · rcases dateLe_total y.publicationDate b.publicationDate with h | h
        · exact absurd h hnle
        · exact h
      · exact hy b hb

lemma sortByRecency_pairwise :
    ∀ l, List.Pairwise (fun a b => dateLe b.publicationDate a.publicationDate = true)
      (sortByRecency l)
  | [] => List.Pairwise.nil
  | x :: xs => insertEntry_pairwise x (sortByRecency xs) (sortByRecency_pairwise xs)

lemma insertEntry_filter (x : ContentEntry) (dd : Date) :
    ∀ ys, List.filter (fun e => decide (e.publicationDate = dd)) (insertEntry x ys)
      = List.filter (fun e => decide (e.publicationDate = dd)) (x :: ys)
  | [] => rfl
  | y :: ys => by
    simp only [insertEntry]
    split
    next hle => rfl
    next hnle =>
      have ih := insertEntry_filter x dd ys
      by_cases hx : x.publicationDate = dd
      · by_cases hy : y.publicationDate = dd
        · exfalso
          apply hnle
          have hxy : y.publicationDate = x.publicationDate := by rw [hy, hx]
          rw [hxy]
          exact dateLe_refl _
        · simp [List.filter_cons, hx, hy, ih]
      · by_cases hy : y.publicationDate = dd
        · simp [List.filter_cons, hx, hy, ih]
        · simp [List.filter_cons, hx, hy, ih]

lemma sortByRecency_filter (dd : Date) :
    ∀ l, List.filter (fun e => decide (e.publicationDate = dd)) (sortByRecency l)
      = List.filter (fun e => decide (e.publicationDate = dd)) l
  | [] => rfl
  | x :: xs => by
    rw [sortByRecency, insertEntry_filter]
    simp [List.filter_cons, sortByRecency_filter dd xs]

/-- C3: dateLe is a total relation, sortByRecency permutes its input
into descending publicationDate order, and the sort is stable:
filtering the output by any fixed date leaves exactly the input's
equal-dated entries in their original relative order; the concrete
three-entry example with a duplicated date sorts as specified. -/
theorem sortByRecency_descending_and_stable :
    (∀ a b : Date, dateLe a b = true ∨ dateLe b a = true)
    ∧ (∀ l : List ContentEntry, List.Perm (sortByRecency l) l)
    ∧ (∀ l : List ContentEntry,
        List.Pairwise (fun a b => dateLe b.publicationDate a.publicationDate = true)
          (sortByRecency l))
    ∧ (∀ (l : List ContentEntry) (dd : Date),
        List.filter (fun e => decide (e.publicationDate = dd)) (sortByRecency l)
          = List.filter (fun e => decide (e.publicationDate = dd)) l)
    ∧ sortByRecency [eJan1a, eMar1, eJan1b] = [eMar1, eJan1a, eJan1b] :=
  ⟨dateLe_total, sortByRecency_perm, sortByRecency_pairwise,
    fun l dd => sortByRecency_filter dd l, rfl⟩

end AstroMicro
